import Mathlib

/-!
Verification of the core of the `volta` toolchain manager against its
design specification.  The development shallowly embeds the two source
files of the core:

* `crates/volta-core/src/distro/node.rs` — the distribution provisioner
  (cache validation, download, manifest-driven npm discovery, sidecar
  persistence and the atomic publish into the install tree), and
* `crates/volta-core/src/tool/binary.rs` — the invocation resolver
  (project-local → user-managed → passthrough precedence chain).

Filesystem and network effects are embedded by explicit state passing:
an abstract filesystem record `FS` plus per-step outcome injections
(`FetchEnv`, `RemoteEnv`, the fields of `SessionM`) stand for the results
of the fallible I/O calls the Rust code makes.  Strings are modelled as
lists of characters (`Str`).
-/

set_option maxRecDepth 4000

/-- Strings of the embedded program, modelled as lists of characters. -/
abbrev Str := List Char

/-- A semver version as used by the core: a three-component ordered
identifier `major.minor.patch` (the spec's data model restricts Version
to the three numeric components). -/
structure Version where
  major : Nat
  minor : Nat
  patch : Nat
deriving DecidableEq, Repr

/-- One decimal digit rendered as a character (`0` ↦ `'0'`, …). -/
def digitChar (d : Nat) : Char := Char.ofNat (48 + d)

/-- Fuelled decimal printer: prepends the decimal digits of `n`
(most-significant first) to `acc`.  Mirrors Rust's `u64::to_string`
output for the version components. -/
def natToCharsAux : Nat → Nat → List Char → List Char
  | 0, _, acc => acc
  | fuel + 1, n, acc =>
    if n < 10 then digitChar n :: acc
    else natToCharsAux fuel (n / 10) (digitChar (n % 10) :: acc)

/-- Decimal rendering of a natural number. -/
def natToChars (n : Nat) : List Char := natToCharsAux (n + 1) n []

/-- Parse a single decimal digit character. -/
def charToDigit (c : Char) : Option Nat :=
  if 48 ≤ c.toNat ∧ c.toNat ≤ 57 then some (c.toNat - 48) else none

/-- Accumulating decimal parser over a character list; fails on any
non-digit character. -/
def parseDigits : List Char → Nat → Option Nat
  | [], acc => some acc
  | c :: cs, acc =>
    match charToDigit c with
    | some d => parseDigits cs (10 * acc + d)
    | none => none

/-- Parse a non-empty run of decimal digits. -/
def parseNat : List Char → Option Nat
  | [] => none
  | c :: cs => parseDigits (c :: cs) 0

/-- Split a character list on a separator character, like
`str::split` / `String.splitOn` restricted to a one-character
separator. -/
def consHead (c : Char) : List (List Char) → List (List Char)
  | [] => [[c]]
  | g :: gs => (c :: g) :: gs

def splitOnChar (sep : Char) : List Char → List (List Char)
  | [] => [[]]
  | c :: cs =>
    if c = sep then [] :: splitOnChar sep cs
    else consHead c (splitOnChar sep cs)

/-- Textual form of a `Version`, mirroring semver's `Display`
implementation used by `npm.to_string()` / `version.to_string()` in the
source: `major.minor.patch` in decimal. -/
def Version.toChars (v : Version) : List Char :=
  natToChars v.major ++ ('.' :: (natToChars v.minor ++ ('.' :: natToChars v.patch)))

/-- Modelled from the spec: `VersionSpec::parse_version` lives in
`crates/volta-core/src/version.rs`, which is not part of the provided
sources.  The spec's data model says a Version is "a three-component
ordered identifier (major.minor.patch)", so parsing accepts exactly
`major.minor.patch` with decimal components. -/
def parse_version (s : Str) : Option Version :=
  match splitOnChar '.' s with
  | [a, b, c] =>
    match parseNat a, parseNat b, parseNat c with
    | some x, some y, some z => some ⟨x, y, z⟩
    | _, _, _ => none
  | _ => none

theorem natToCharsAux_fuel (f g n : Nat) (acc : List Char) (hf : n < f) (hg : n < g) :
    natToCharsAux f n acc = natToCharsAux g n acc := by
  induction f generalizing g n acc with
  | zero => omega
  | succ f ih =>
    cases g with
    | zero => omega
    | succ g =>
      simp only [natToCharsAux]
      by_cases h : n < 10
      · simp [h]
      · simp only [if_neg h]
        have hn : 0 < n := by omega
        have hd : n / 10 < n := Nat.div_lt_self hn (by omega)
        exact ih g (n / 10) _ (by omega) (by omega)

theorem natToCharsAux_acc (f n : Nat) (acc : List Char) (hf : n < f) :
    natToCharsAux f n acc = natToCharsAux f n [] ++ acc := by
  induction f generalizing n acc with
  | zero => omega
  | succ f ih =>
    simp only [natToCharsAux]
    by_cases h : n < 10
    · simp [h]
    · simp only [if_neg h]
      have hn : 0 < n := by omega
      have hd : n / 10 < n := Nat.div_lt_self hn (by omega)
      rw [ih (n / 10) _ (by omega), ih (n / 10) ([digitChar (n % 10)]) (by omega),
        List.append_assoc]
      rfl

theorem charToDigit_digitChar (d : Nat) (hd : d < 10) :
    charToDigit (digitChar d) = some d := by
  interval_cases d <;> decide

theorem parseDigits_append (l₁ l₂ : List Char) (acc m : Nat)
    (h : parseDigits l₁ acc = some m) :
    parseDigits (l₁ ++ l₂) acc = parseDigits l₂ m := by
  induction l₁ generalizing acc with
  | nil =>
    simp only [parseDigits] at h
    cases h
    simp
  | cons c cs ih =>
    simp only [parseDigits, List.cons_append] at h ⊢
    cases hc : charToDigit c with
    | none => rw [hc] at h; simp at h
    | some d => rw [hc] at h; exact ih _ h

theorem parseDigits_natToChars (n : Nat) : parseDigits (natToChars n) 0 = some n := by
  induction n using Nat.strong_induction_on with
  | _ n ih =>
    by_cases h : n < 10
    · have : natToChars n = [digitChar n] := by
        simp [natToChars, natToCharsAux, h]
      rw [this]
      simp [parseDigits, charToDigit_digitChar n h]
    · have hn : 0 < n := by omega
      have hd : n / 10 < n := Nat.div_lt_self hn (by omega)
      have step : natToChars n = natToChars (n / 10) ++ [digitChar (n % 10)] := by
        simp only [natToChars, natToCharsAux, if_neg h]
        rw [natToCharsAux_acc n (n / 10) _ (by omega),
          natToCharsAux_fuel n (n / 10 + 1) (n / 10) [] (by omega) (by omega)]
        simp only [natToCharsAux]
      rw [step, parseDigits_append _ _ _ _ (ih (n / 10) hd)]
      simp only [parseDigits, charToDigit_digitChar (n % 10) (Nat.mod_lt n (by omega))]
      have harith : 10 * (n / 10) + n % 10 = n := by omega
      rw [harith]

theorem natToChars_ne_nil (n : Nat) : natToChars n ≠ [] := by
  by_cases h : n < 10
  · simp [natToChars, natToCharsAux, h]
  · simp only [natToChars, natToCharsAux, if_neg h]
    have hn : 0 < n := by omega
    rw [natToCharsAux_acc n (n / 10) _ (by
      have := Nat.div_lt_self hn (show 1 < 10 by omega); omega)]
    simp

theorem parseNat_natToChars (n : Nat) : parseNat (natToChars n) = some n := by
  have hne := natToChars_ne_nil n
  have hp := parseDigits_natToChars n
  cases hcs : natToChars n with
  | nil => exact absurd hcs hne
  | cons c cs =>
    rw [hcs] at hp
    simpa [parseNat] using hp

theorem splitOnChar_of_not_mem (sep : Char) (l : List Char) (h : sep ∉ l) :
    splitOnChar sep l = [l] := by
  induction l with
  | nil => rfl
  | cons c cs ih =>
    have hc : ¬c = sep := fun he => h (by simp [he])
    have hcs : sep ∉ cs := fun hm => h (by simp [hm])
    simp only [splitOnChar, if_neg hc, ih hcs, consHead]

theorem splitOnChar_append (sep : Char) (l₁ l₂ : List Char) (h : sep ∉ l₁) :
    splitOnChar sep (l₁ ++ sep :: l₂) = l₁ :: splitOnChar sep l₂ := by
  induction l₁ with
  | nil => simp [splitOnChar]
  | cons c cs ih =>
    have hc : ¬c = sep := fun he => h (by simp [he])
    have hcs : sep ∉ cs := fun hm => h (by simp [hm])
    rw [List.cons_append, splitOnChar, if_neg hc, ih hcs, consHead]

theorem mem_natToCharsAux (f n : Nat) (acc : List Char) (c : Char)
    (h : c ∈ natToCharsAux f n acc) :
    c ∈ acc ∨ ∃ d, d < 10 ∧ c = digitChar d := by
  induction f generalizing n acc with
  | zero => exact Or.inl h
  | succ f ih =>
    simp only [natToCharsAux] at h
    by_cases hn : n < 10
    · rw [if_pos hn] at h
      rcases List.mem_cons.mp h with he | hm
      · exact Or.inr ⟨n, hn, he⟩
      · exact Or.inl hm
    · rw [if_neg hn] at h
      rcases ih (n / 10) _ h with hm | hd
      · rcases List.mem_cons.mp hm with he | hm'
        · exact Or.inr ⟨n % 10, Nat.mod_lt n (by omega), he⟩
        · exact Or.inl hm'
      · exact Or.inr hd

theorem digitChar_ne_dot (d : Nat) (hd : d < 10) : digitChar d ≠ '.' := by
  intro he
  have h1 := charToDigit_digitChar d hd
  rw [he] at h1
  have h2 : charToDigit '.' = none := by decide
  rw [h2] at h1
  cases h1

theorem dot_not_mem_natToChars (n : Nat) : '.' ∉ natToChars n := by
  intro hm
  rcases mem_natToCharsAux (n + 1) n [] _ hm with h | ⟨d, hd, he⟩
  · cases h
  · exact digitChar_ne_dot d hd he.symm

theorem parse_version_toChars (v : Version) : parse_version (Version.toChars v) = some v := by
  have hsplit : splitOnChar '.' (Version.toChars v)
      = [natToChars v.major, natToChars v.minor, natToChars v.patch] := by
    rw [Version.toChars, splitOnChar_append '.' _ _ (dot_not_mem_natToChars v.major),
      splitOnChar_append '.' _ _ (dot_not_mem_natToChars v.minor),
      splitOnChar_of_not_mem '.' _ (dot_not_mem_natToChars v.patch)]
  rw [parse_version, hsplit]
  simp only [parseNat_natToChars]

/-- Error taxonomy of the embedded fragment, mirroring the
`ErrorDetails` variants the two source files construct (fields reduced
to the context they carry). -/
inductive ErrorDetails where
  | ReadDefaultNpmError (file : Str)
  | WriteDefaultNpmError (file : Str)
  | VersionParseError (version : Str)
  | CreateTempDirError (in_dir : Str)
  | UnpackArchiveError (tool : Str) (version : Str)
  | ReadNpmManifestError
  | ParseNpmManifestError
  | SetupToolImageError (tool : Str) (version : Str) (dir : Str)
  | DownloadToolNetworkError (version : Str) (url : Str)
  | ContainingDirError (path : Str)
  | ProjectLocalBinaryNotFound (command : Str)
  | NoPlatform
  | BinaryNotFound (name : Str)
  | Other (code : Nat)
deriving DecidableEq, Repr

instance {ε α : Type} [DecidableEq ε] [DecidableEq α] : DecidableEq (Except ε α) :=
  fun x y =>
    match x, y with
    | .ok a, .ok b =>
      match decEq a b with
      | isTrue h => isTrue (h ▸ rfl)
      | isFalse h => isFalse fun he => h (Except.ok.inj he)
    | .error a, .error b =>
      match decEq a b with
      | isTrue h => isTrue (h ▸ rfl)
      | isFalse h => isFalse fun he => h (Except.error.inj he)
    | .ok _, .error _ => isFalse fun he => Except.noConfusion he
    | .error _, .ok _ => isFalse fun he => Except.noConfusion he

/-- The tagged result of an install attempt (`Fetched` in
`distro/mod.rs`): `Already` if the target version was already
installed, `Now` if this call performed the install. -/
inductive Fetched (α : Type) where
  | Already (value : α)
  | Now (value : α)
deriving DecidableEq, Repr

/-- A full Node version: the runtime itself plus the npm version
bundled with it (`NodeVersion` in `node.rs`). -/
structure NodeVersion where
  runtime : Version
  npm : Version
deriving DecidableEq, Repr

/-- Modelled from the spec: the `crate::path` module is not under the
provided sources; the spec says sidecar files are "named by runtime
version" and paths "are deterministic functions of version strings". -/
def node_npm_version_file (v : Str) : Str :=
  "inventory/node/node-v".data ++ v ++ "-npm".data

/-- Modelled from the spec: `path::node_distro_file_name`, the
platform-specific archive filename for a version string. -/
def node_distro_file_name (v : Str) : Str :=
  "node-v".data ++ v ++ "-linux-x64.tar.gz".data

/-- Modelled from the spec: `path::node_image_dir`, the install-tree
directory for a `{runtime, npm}` pair of version strings. -/
def node_image_dir (v npm : Str) : Str :=
  "tools/image/node/".data ++ v ++ ('/' :: npm)

/-- Modelled from the spec: `path::tmp_dir`, the scratch root for
ephemeral extraction directories. -/
def tmp_dir : Str := "tmp".data

/-- Association-list lookup for the file map of the abstract
filesystem. -/
def lookupFile (p : Str) : List (Str × Str) → Option Str
  | [] => none
  | (q, c) :: rest => if q = p then some c else lookupFile p rest

/-- Association-list update (insert-or-overwrite) for the file map. -/
def setFile (p c : Str) : List (Str × Str) → List (Str × Str)
  | [] => [(p, c)]
  | (q, d) :: rest => if q = p then (p, c) :: rest else (q, d) :: setFile p c rest

/-- The abstract persistent filesystem the provisioner mutates:
sidecar files (path ↦ contents) and the set of published install-tree
directories. -/
structure FS where
  files : List (Str × Str)
  dirs : List Str
deriving DecidableEq, Repr

/-- `load_default_npm_version` (node.rs:59): read the sidecar file for
`node` and parse its contents as a Version; fatal if the file is
missing or unparsable. -/
def load_default_npm_version (node : Version) (fs : FS) : Except ErrorDetails Version :=
  let npm_version_file_path := node_npm_version_file (Version.toChars node)
  match lookupFile npm_version_file_path fs.files with
  | none => .error (.ReadDefaultNpmError npm_version_file_path)
  | some npm_version =>
    match parse_version npm_version with
    | some v => .ok v
    | none => .error (.VersionParseError npm_version)

/-- `save_default_npm_version` (node.rs:70): write the npm version's
textual form to the sidecar file for `node`.  `writeOk` injects the
outcome of the underlying `fs::write` call. -/
def save_default_npm_version (node npm : Version) (writeOk : Bool) (fs : FS) :
    Except ErrorDetails FS :=
  let npm_version_file_path := node_npm_version_file (Version.toChars node)
  if writeOk then
    .ok { fs with files := setFile npm_version_file_path (Version.toChars npm) fs.files }
  else .error (.WriteDefaultNpmError npm_version_file_path)

/-- An opened archive handle (the `Box<dyn Archive>` capability). -/
structure ArchiveM where
  id : Nat
deriving DecidableEq, Repr

/-- Observable state of the file at the expected cache path, covering
the three checks of `load_cached_distro`: `is_file`, `File::open`, and
`archive::load_native`. -/
structure CacheFileState where
  is_file : Bool
  opens : Bool
  load_native : Option ArchiveM
deriving DecidableEq, Repr

/-- `load_cached_distro` (node.rs:82): return the archive only if the
path is a regular file that opens and parses as a native archive; any
failure yields `none`, never an error. -/
def load_cached_distro (file : CacheFileState) : Option ArchiveM :=
  if file.is_file then
    if file.opens then file.load_native
    else none
  else none

/-- A provisioned Node distribution (`NodeDistro` in node.rs):
exclusive archive handle plus the target version. -/
structure NodeDistroM where
  archive : ArchiveM
  version : Version
deriving DecidableEq, Repr

/-- Injected outcomes of the collaborator calls `NodeDistro::remote`
makes: the state of the cache file, the result of
`ensure_containing_dir_exists`, and the downloader
`archive::fetch_native` as a function of the URL. -/
structure RemoteEnv where
  cache : CacheFileState
  ensureDirOk : Bool
  fetch_native : Str → Except ErrorDetails ArchiveM

/-- `public_node_server_root` for the non-mock build (node.rs:35). -/
def public_node_server_root : Str := "https://nodejs.org/dist".data

/-- `NodeDistro::remote` (node.rs:123): reuse the cached archive when
it validates, otherwise ensure the cache directory exists and download
from `url`, annotating a transport failure with tool, version and
URL. -/
def NodeDistro.remote (version : Version) (url : Str) (env : RemoteEnv) :
    Except ErrorDetails NodeDistroM :=
  match load_cached_distro env.cache with
  | some archive => .ok { archive := archive, version := version }
  | none =>
    if env.ensureDirOk then
      match env.fetch_native url with
      | .ok archive => .ok { archive := archive, version := version }
      | .error _ => .error (.DownloadToolNetworkError (Version.toChars version) url)
    else .error (.ContainingDirError (node_distro_file_name (Version.toChars version)))

/-- `NodeDistro::public` (node.rs:111): provision from the default
public registry URL `{root}/v{version}/{file}`. -/
def NodeDistro.public (version : Version) (env : RemoteEnv) :
    Except ErrorDetails NodeDistroM :=
  let distro_file_name := node_distro_file_name (Version.toChars version)
  NodeDistro.remote version
    (public_node_server_root ++ ('/' :: ('v' :: (Version.toChars version ++ ('/' :: distro_file_name)))))
    env

/-- The optional injected URL-override strategy (`hook.resolve`). -/
structure DistroHook where
  resolve : Version → Str → Except ErrorDetails Str

/-- `ToolHooks` restricted to the field `NodeDistro::new` consults. -/
structure ToolHooks where
  distro : Option DistroHook

/-- `NodeDistro::new` (node.rs:154): use the distro hook's URL when a
hooks object with a present `distro` field is supplied, otherwise the
public URL. -/
def NodeDistro.new (version : Version) (hooks : Option ToolHooks) (env : RemoteEnv) :
    Except ErrorDetails NodeDistroM :=
  match hooks with
  | some h =>
    match h.distro with
    | some hook =>
      match hook.resolve version (node_distro_file_name (Version.toChars version)) with
      | .ok url => NodeDistro.remote version url env
      | .error e => .error e
    | none => NodeDistro.public version env
  | none => NodeDistro.public version env

/-- The manifest descriptor parsed from the npm `package.json` inside
the extracted payload (`Manifest` in node.rs, field `version`). -/
structure Manifest where
  version : Str
deriving DecidableEq, Repr

/-- Observable state of the manifest file inside the extracted tree,
covering the two fallible steps of `Manifest::read`: `File::open` and
the serde parse. -/
inductive ManifestFile where
  | missing
  | unparsable
  | parsed (m : Manifest)
deriving DecidableEq, Repr

/-- `Manifest::read` (node.rs:99): open the manifest file and
deserialize it; the two failure modes carry the corresponding error. -/
def Manifest.read : ManifestFile → Except ErrorDetails Manifest
  | .missing => .error .ReadNpmManifestError
  | .unparsable => .error .ParseNpmManifestError
  | .parsed m => .ok m

/-- `Manifest::version` (node.rs:104): read the manifest and parse its
`version` field as a Version. -/
def Manifest.versionOf (f : ManifestFile) : Except ErrorDetails Version :=
  match Manifest.read f with
  | .error e => .error e
  | .ok m =>
    match parse_version m.version with
    | some v => .ok v
    | none => .error (.VersionParseError m.version)

/-- Injected outcomes of the collaborator calls `NodeDistro::fetch`
makes on a fresh install: `tempdir_in`, `archive.unpack`, the state of
the manifest file inside the extracted tree, `fs::write` for the
sidecar, and the parent-directory creation and `rename` of the
publish step. -/
structure FetchEnv where
  tempdirOk : Bool
  unpackOk : Bool
  manifest : ManifestFile
  writeOk : Bool
  ensureDirOk : Bool
  renameOk : Bool
deriving DecidableEq, Repr

/-- `NodeDistro::fetch` (node.rs:180), as a state transformer on the
abstract filesystem.  Returns the operation's result together with the
filesystem afterwards (also on failure, so partial effects are
observable).  The already-installed branch touches neither the archive
nor the environment; the fresh branch extracts into scratch (scratch
contents are ephemeral and not tracked in `FS`), reads the manifest,
persists the sidecar, and publishes the install-tree directory only at
the final rename. -/
def NodeDistro.fetch (d : NodeDistroM) (collection : List Version) (env : FetchEnv)
    (fs : FS) : Except ErrorDetails (Fetched NodeVersion) × FS :=
  if d.version ∈ collection then
    match load_default_npm_version d.version fs with
    | .error e => (.error e, fs)
    | .ok npm => (.ok (.Already { runtime := d.version, npm := npm }), fs)
  else if ¬env.tempdirOk then
    (.error (.CreateTempDirError tmp_dir), fs)
  else if ¬env.unpackOk then
    (.error (.UnpackArchiveError ("Node").data (Version.toChars d.version)), fs)
  else
    match Manifest.versionOf env.manifest with
    | .error e => (.error e, fs)
    | .ok npm =>
      match save_default_npm_version d.version npm env.writeOk fs with
      | .error e => (.error e, fs)
      | .ok fs₁ =>
        let dest := node_image_dir (Version.toChars d.version) (Version.toChars npm)
        if ¬env.ensureDirOk then
          (.error (.ContainingDirError dest), fs₁)
        else if ¬env.renameOk then
          (.error (.SetupToolImageError ("Node").data (Version.toChars d.version) dest), fs₁)
        else
          (.ok (.Now { runtime := d.version, npm := npm }),
            { fs₁ with dirs := dest :: fs₁.dirs })

/-- An installed image on disk; `path` is the result of the fallible
`image.path()` call that realizes its execution environment. -/
structure ImageM where
  path : Except ErrorDetails Str
deriving DecidableEq, Repr

/-- A selected platform; `checkout` is the result of the fallible
`platform.checkout(session)` call. -/
structure PlatformM where
  checkout : Except ErrorDetails ImageM
deriving DecidableEq, Repr

/-- An interpreter/shim declared by a user tool (`Loader`): a command
and its fixed argument sequence. -/
structure LoaderM where
  command : Str
  args : List Str
deriving DecidableEq, Repr

/-- A tool explicitly installed in the user toolchain (`UserTool`). -/
structure UserToolM where
  image : ImageM
  bin_path : Str
  loader : Option LoaderM
deriving DecidableEq, Repr

/-- The active project as the resolver observes it: the fallible
`has_direct_bin` query, the local binary directory, and the optional
pinned platform. -/
structure ProjectM where
  has_direct_bin : Str → Except ErrorDetails Bool
  local_bin_dir : Str
  platform : Option PlatformM

/-- The session world the resolver reads: current project, user-level
default platform, user-tool lookup by name, and the filesystem
`is_file` observation for the project-local binary path. -/
structure SessionM where
  project : Except ErrorDetails (Option ProjectM)
  user_platform : Except ErrorDetails (Option PlatformM)
  get_user_tool : Str → Except ErrorDetails (Option UserToolM)
  is_file : Str → Bool

/-- The fully assembled invocation the resolver emits (`ToolCommand`).
Modelled from the spec for the constructor bodies that live outside the
provided sources: `ToolCommand::passthrough` "carries the bare command
name, caller arguments unchanged, and the caller's inherited search
path" with an attached deferred failure, and never fails at resolution
time. -/
inductive ToolCommand where
  | project_local (exe : Str) (args : List Str) (path : Str)
  | direct (exe : Str) (args : List Str) (path : Str)
  | passthrough (exe : Str) (args : List Str) (on_failure : ErrorDetails)
deriving DecidableEq, Repr

/-- The user-managed and passthrough tiers of `command`
(binary.rs:52-79), reached when no project-local match exists. -/
def user_tool_tier (exe : Str) (args : List Str) (s : SessionM) :
    Except ErrorDetails ToolCommand :=
  match s.get_user_tool exe with
  | .error e => .error e
  | .ok (some user_tool) =>
    match user_tool.image.path with
    | .error e => .error e
    | .ok path =>
      match user_tool.loader with
      | some loader =>
        .ok (.direct loader.command (loader.args ++ (user_tool.bin_path :: args)) path)
      | none => .ok (.direct user_tool.bin_path args path)
  | .ok none => .ok (.passthrough exe args (.BinaryNotFound exe))

/-- The project-local tier of `command` (binary.rs:19-48), reached when
the active project declares `exe` as a direct-dependency binary. -/
def project_local_tier (exe : Str) (args : List Str) (project : ProjectM) (s : SessionM) :
    Except ErrorDetails ToolCommand :=
  let path_to_bin := project.local_bin_dir ++ ('/' :: exe)
  if ¬s.is_file path_to_bin then
    .error (.ProjectLocalBinaryNotFound path_to_bin)
  else
    match project.platform with
    | some platform =>
      match platform.checkout with
      | .error e => .error e
      | .ok image =>
        match image.path with
        | .error e => .error e
        | .ok path => .ok (.project_local path_to_bin args path)
    | none =>
      match s.user_platform with
      | .error e => .error e
      | .ok (some platform) =>
        match platform.checkout with
        | .error e => .error e
        | .ok image =>
          match image.path with
          | .error e => .error e
          | .ok path => .ok (.project_local path_to_bin args path)
      | .ok none => .ok (.passthrough path_to_bin args .NoPlatform)

/-- `command` (binary.rs:10): the full precedence chain.  The project
tier is taken exactly when a project is active and declares `exe` as a
direct-dependency binary; otherwise resolution falls through to the
user-managed and passthrough tiers. -/
def command (exe : Str) (args : List Str) (s : SessionM) : Except ErrorDetails ToolCommand :=
  match s.project with
  | .error e => .error e
  | .ok (some project) =>
    match project.has_direct_bin exe with
    | .error e => .error e
    | .ok true => project_local_tier exe args project s
    | .ok false => user_tool_tier exe args s
  | .ok none => user_tool_tier exe args s

theorem lookupFile_setFile (p c : Str) (l : List (Str × Str)) :
    lookupFile p (setFile p c l) = some c := by
  induction l with
  | nil => simp [setFile, lookupFile]
  | cons qd rest ih =>
    obtain ⟨q, d⟩ := qd
    by_cases h : q = p
    · simp [setFile, lookupFile, h]
    · simp [setFile, lookupFile, h, ih]

/-- C9: for every valid version pair `(v, s)`, saving `s` as the
sidecar secondary version for runtime version `v` and then loading the
sidecar for `v` returns exactly `s`: the textual form written by
`save_default_npm_version` parses back to the same Version. -/
theorem claim_C9_sidecar_roundtrip (v s : Version) (fs fs' : FS)
    (h : save_default_npm_version v s true fs = .ok fs') :
    load_default_npm_version v fs' = .ok s := by
  simp only [save_default_npm_version, if_true] at h
  cases h
  simp only [load_default_npm_version, lookupFile_setFile, parse_version_toChars]

def c9_fs' : FS :=
  { files := [(node_npm_version_file (Version.toChars ⟨10, 1, 0⟩), Version.toChars ⟨6, 14, 8⟩)],
    dirs := [] }

theorem claim_C9_sidecar_roundtrip_witness :
    load_default_npm_version ⟨10, 1, 0⟩ c9_fs' = .ok ⟨6, 14, 8⟩ :=
  claim_C9_sidecar_roundtrip ⟨10, 1, 0⟩ ⟨6, 14, 8⟩ { files := [], dirs := [] } c9_fs'
    (by decide)

/-- C10: supplying a hooks object whose `distro` field is absent yields
exactly the same behavior as supplying no hooks at all, namely
provisioning from the default public registry URL
`{root}/v{version}/{filename}`; the hook override is consulted only
when the `distro` field itself is present. -/
theorem claim_C10_absent_distro_hook_uses_public_url (v : Version) (env : RemoteEnv) :
    NodeDistro.new v (some { distro := none }) env = NodeDistro.public v env
    ∧ NodeDistro.new v none env = NodeDistro.public v env
    ∧ NodeDistro.public v env
      = NodeDistro.remote v
          (public_node_server_root
            ++ ('/' :: ('v' :: (Version.toChars v
              ++ ('/' :: node_distro_file_name (Version.toChars v)))))) env :=
  ⟨rfl, rfl, rfl⟩

/-- C6: the cached-archive check accepts the file only if it is a
regular file that opens and parses as a structurally valid archive; any
failure at any step yields `none` rather than an error, and `remote`
then proceeds to download to the cache path, so a corrupt cache file
never causes a user-facing failure. -/
theorem claim_C6_cache_rejection (v : Version) (url : Str) (env : RemoteEnv) (a : ArchiveM)
    (hbad : env.cache.is_file = false ∨ env.cache.opens = false
      ∨ env.cache.load_native = none)
    (hdir : env.ensureDirOk = true)
    (hdl : env.fetch_native url = .ok a) :
    load_cached_distro env.cache = none
    ∧ NodeDistro.remote v url env = .ok { archive := a, version := v } := by
  have hnone : load_cached_distro env.cache = none := by
    unfold load_cached_distro
    rcases hbad with h | h | h <;> split_ifs <;> simp_all
  refine ⟨hnone, ?_⟩
  unfold NodeDistro.remote
  rw [hnone, hdir, hdl]
  rfl

def c6_env : RemoteEnv :=
  { cache := { is_file := true, opens := true, load_native := none },
    ensureDirOk := true,
    fetch_native := fun _ => .ok { id := 7 } }

theorem claim_C6_cache_rejection_witness :
    load_cached_distro c6_env.cache = none
    ∧ NodeDistro.remote ⟨10, 1, 0⟩ ("someurl").data c6_env
      = .ok { archive := { id := 7 }, version := ⟨10, 1, 0⟩ } :=
  claim_C6_cache_rejection ⟨10, 1, 0⟩ (("someurl").data) c6_env { id := 7 }
    (by decide) (by decide) (by decide)

/-- C2: when the distro's runtime version is already in the installed
collection, fetch returns `Already` with the npm version read from the
sidecar, touches neither the filesystem nor the archive (the result is
independent of every injected archive/scratch/network outcome), and a
second call returns the identical `Already` result. -/
theorem claim_C2_already_installed_noop (d : NodeDistroM) (collection : List Version)
    (env env' : FetchEnv) (fs : FS) (npm : Version)
    (hmem : d.version ∈ collection)
    (hload : load_default_npm_version d.version fs = .ok npm) :
    NodeDistro.fetch d collection env fs
      = (.ok (.Already { runtime := d.version, npm := npm }), fs)
    ∧ NodeDistro.fetch d collection env fs = NodeDistro.fetch d collection env' fs
    ∧ NodeDistro.fetch d collection env' (NodeDistro.fetch d collection env fs).2
      = (.ok (.Already { runtime := d.version, npm := npm }), fs) := by
  have hfix : ∀ e : FetchEnv, NodeDistro.fetch d collection e fs
      = (.ok (.Already { runtime := d.version, npm := npm }), fs) := by
    intro e
    unfold NodeDistro.fetch
    rw [if_pos hmem, hload]
  refine ⟨hfix env, ?_, ?_⟩
  · rw [hfix env, hfix env']
  · rw [hfix env]
    exact hfix env'

def c2_fs : FS :=
  { files := [(node_npm_version_file (Version.toChars ⟨10, 1, 0⟩), Version.toChars ⟨6, 14, 8⟩)],
    dirs := [node_image_dir (Version.toChars ⟨10, 1, 0⟩) (Version.toChars ⟨6, 14, 8⟩)] }

def c2_env : FetchEnv :=
  { tempdirOk := true, unpackOk := true, manifest := .missing,
    writeOk := true, ensureDirOk := true, renameOk := true }

def c2_env' : FetchEnv :=
  { tempdirOk := false, unpackOk := false, manifest := .unparsable,
    writeOk := false, ensureDirOk := false, renameOk := false }

theorem claim_C2_already_installed_noop_witness :
    NodeDistro.fetch { archive := { id := 1 }, version := ⟨10, 1, 0⟩ } [⟨10, 1, 0⟩] c2_env c2_fs
      = (.ok (.Already { runtime := ⟨10, 1, 0⟩, npm := ⟨6, 14, 8⟩ }), c2_fs)
    ∧ NodeDistro.fetch { archive := { id := 1 }, version := ⟨10, 1, 0⟩ } [⟨10, 1, 0⟩] c2_env c2_fs
      = NodeDistro.fetch { archive := { id := 1 }, version := ⟨10, 1, 0⟩ } [⟨10, 1, 0⟩] c2_env' c2_fs
    ∧ NodeDistro.fetch { archive := { id := 1 }, version := ⟨10, 1, 0⟩ } [⟨10, 1, 0⟩] c2_env'
        (NodeDistro.fetch { archive := { id := 1 }, version := ⟨10, 1, 0⟩ } [⟨10, 1, 0⟩] c2_env c2_fs).2
      = (.ok (.Already { runtime := ⟨10, 1, 0⟩, npm := ⟨6, 14, 8⟩ }), c2_fs) :=
  claim_C2_already_installed_noop { archive := { id := 1 }, version := ⟨10, 1, 0⟩ }
    [⟨10, 1, 0⟩] c2_env c2_env' c2_fs ⟨6, 14, 8⟩ (by decide) (by decide)

/-- C1: on a fresh install the install-tree directory is published only
by the final rename: if fetch fails at any step, the set of published
install-tree directories afterwards equals the one before (so the
directory of the target pair is absent if it was absent before), and on
success exactly the `{runtime, npm}` install directory was added — no
partially-published state is observable. -/
theorem claim_C1_atomic_publish (d : NodeDistroM) (collection : List Version)
    (env : FetchEnv) (fs : FS)
    (hfresh : d.version ∉ collection) :
    (∀ e, (NodeDistro.fetch d collection env fs).1 = .error e →
      (NodeDistro.fetch d collection env fs).2.dirs = fs.dirs)
    ∧ (∀ nv, (NodeDistro.fetch d collection env fs).1 = .ok (.Now nv) →
      (NodeDistro.fetch d collection env fs).2.dirs
        = node_image_dir (Version.toChars nv.runtime) (Version.toChars nv.npm) :: fs.dirs) := by
  obtain ⟨t, u, mf, w, ed, r⟩ := env
  unfold NodeDistro.fetch
  rw [if_neg hfresh]
  cases hm : Manifest.versionOf mf with
  | error e' =>
    cases t <;> cases u <;> simp [save_default_npm_version, hm]
  | ok npm =>
    cases t <;> cases u <;> cases w <;> cases ed <;> cases r <;>
      simp [save_default_npm_version, hm]

def c1_env : FetchEnv :=
  { tempdirOk := true, unpackOk := true, manifest := .missing,
    writeOk := true, ensureDirOk := true, renameOk := true }

theorem claim_C1_atomic_publish_witness :
    (NodeDistro.fetch { archive := { id := 2 }, version := ⟨10, 1, 0⟩ } [] c1_env
      { files := [], dirs := [] }).2.dirs = ({ files := [], dirs := [] } : FS).dirs :=
  (claim_C1_atomic_publish { archive := { id := 2 }, version := ⟨10, 1, 0⟩ } [] c1_env
    { files := [], dirs := [] } (by decide)).1 .ReadNpmManifestError (by decide)

/-- C7: on a successful fresh install the npm version in the result is
obtained exclusively by parsing the manifest inside the extracted
payload — success forces the manifest file to be present and parsable,
and the result's npm component is exactly the parsed value — and the
parsed value is persisted to the sidecar file before the result is
produced. -/
theorem claim_C7_manifest_authoritative (d : NodeDistroM) (collection : List Version)
    (env : FetchEnv) (fs : FS) (r : Fetched NodeVersion) (fs' : FS)
    (hfresh : d.version ∉ collection)
    (hok : NodeDistro.fetch d collection env fs = (.ok r, fs')) :
    ∃ m npm, env.manifest = .parsed m ∧ parse_version m.version = some npm
      ∧ r = .Now { runtime := d.version, npm := npm }
      ∧ lookupFile (node_npm_version_file (Version.toChars d.version)) fs'.files
        = some (Version.toChars npm) := by
  obtain ⟨t, u, mf, w, ed, rn⟩ := env
  unfold NodeDistro.fetch at hok
  rw [if_neg hfresh] at hok
  cases t with
  | false => simp at hok
  | true =>
    cases u with
    | false => simp at hok
    | true =>
      cases mf with
      | missing => simp [Manifest.versionOf, Manifest.read] at hok
      | unparsable => simp [Manifest.versionOf, Manifest.read] at hok
      | parsed m =>
        cases hpv : parse_version m.version with
        | none => simp [Manifest.versionOf, Manifest.read, hpv] at hok
        | some npm =>
          cases w with
          | false =>
            simp [Manifest.versionOf, Manifest.read, hpv, save_default_npm_version] at hok
          | true =>
            cases ed with
            | false =>
              simp [Manifest.versionOf, Manifest.read, hpv, save_default_npm_version] at hok
            | true =>
              cases rn with
              | false =>
                simp [Manifest.versionOf, Manifest.read, hpv,
                  save_default_npm_version] at hok
              | true =>
                simp [Manifest.versionOf, Manifest.read, hpv,
                  save_default_npm_version, Prod.mk.injEq] at hok
                obtain ⟨hr, hfs⟩ := hok
                subst hfs
                refine ⟨m, npm, rfl, hpv, hr.symm, ?_⟩
                exact lookupFile_setFile _ _ _

def c7_env : FetchEnv :=
  { tempdirOk := true, unpackOk := true,
    manifest := .parsed { version := ("6.14.8").data },
    writeOk := true, ensureDirOk := true, renameOk := true }

def c7_fs' : FS :=
  { files := [(node_npm_version_file (Version.toChars ⟨10, 1, 0⟩), Version.toChars ⟨6, 14, 8⟩)],
    dirs := [node_image_dir (Version.toChars ⟨10, 1, 0⟩) (Version.toChars ⟨6, 14, 8⟩)] }

theorem claim_C7_manifest_authoritative_witness :
    ∃ m npm, c7_env.manifest = .parsed m ∧ parse_version m.version = some npm
      ∧ (Fetched.Now { runtime := ⟨10, 1, 0⟩, npm := ⟨6, 14, 8⟩ } : Fetched NodeVersion)
          = .Now { runtime := ⟨10, 1, 0⟩, npm := npm }
      ∧ lookupFile (node_npm_version_file (Version.toChars ⟨10, 1, 0⟩)) c7_fs'.files
        = some (Version.toChars npm) :=
  claim_C7_manifest_authoritative { archive := { id := 3 }, version := ⟨10, 1, 0⟩ } []
    c7_env { files := [], dirs := [] }
    (.Now { runtime := ⟨10, 1, 0⟩, npm := ⟨6, 14, 8⟩ }) c7_fs'
    (by decide) (by decide)

/-- C4: when the active project declares the command as a direct
dependency, later tiers are never consulted — the result is independent
of the user-tool lookup — and if the resolved project-local path is not
a file on disk, resolution fails fatally with a project-local-binary-
not-found error naming that path. -/
theorem claim_C4_project_tier_wins (exe : Str) (args : List Str) (s : SessionM)
    (p : ProjectM) (g : Str → Except ErrorDetails (Option UserToolM))
    (hp : s.project = .ok (some p))
    (hb : p.has_direct_bin exe = .ok true) :
    command exe args { s with get_user_tool := g } = command exe args s
    ∧ (s.is_file (p.local_bin_dir ++ ('/' :: exe)) = false →
      command exe args s
        = .error (.ProjectLocalBinaryNotFound (p.local_bin_dir ++ ('/' :: exe)))) := by
  constructor
  · simp only [command, hp, hb]
    rfl
  · intro hnf
    simp [command, hp, hb, project_local_tier, hnf]

def c4_exe : Str := ("foo").data
def c4_args : List Str := [("x").data]

def c4_project : ProjectM :=
  { has_direct_bin := fun e => .ok (decide (e = c4_exe)),
    local_bin_dir := ("proj/node_modules/.bin").data,
    platform := none }

def c4_user_tool : UserToolM :=
  { image := { path := .ok (("img/path").data) },
    bin_path := ("user/tools/foo").data,
    loader := none }

def c4_session : SessionM :=
  { project := .ok (some c4_project),
    user_platform := .ok none,
    get_user_tool := fun e => .ok (if e = c4_exe then some c4_user_tool else none),
    is_file := fun _ => false }

theorem claim_C4_project_tier_wins_witness :
    command c4_exe c4_args c4_session
      = .error (.ProjectLocalBinaryNotFound (c4_project.local_bin_dir ++ ('/' :: c4_exe))) :=
  (claim_C4_project_tier_wins c4_exe c4_args c4_session c4_project
    (fun _ => .ok none) (by rfl) (by rfl)).2 (by rfl)

/-- C5: for a user-managed match with no project-local match, a
declared loader yields a Direct command that is exactly the loader's
command, the loader's fixed arguments in order, the resolved target
path, then the caller's arguments in order; without a loader the
command is the target path followed directly by the caller's
arguments; in both cases the environment realized from the tool's
image is used. -/
theorem claim_C5_loader_composition (exe : Str) (args : List Str) (s : SessionM)
    (ut : UserToolM) (path : Str)
    (hnp : s.project = .ok none
      ∨ ∃ p, s.project = .ok (some p) ∧ p.has_direct_bin exe = .ok false)
    (hut : s.get_user_tool exe = .ok (some ut))
    (hpath : ut.image.path = .ok path) :
    (∀ loader, ut.loader = some loader →
      command exe args s
        = .ok (.direct loader.command (loader.args ++ (ut.bin_path :: args)) path))
    ∧ (ut.loader = none → command exe args s = .ok (.direct ut.bin_path args path)) := by
  have hcmd : command exe args s = user_tool_tier exe args s := by
    rcases hnp with h | ⟨p, h, hb⟩
    · simp only [command, h]
    · simp only [command, h, hb]
  constructor
  · intro loader hl
    rw [hcmd]
    simp only [user_tool_tier, hut, hpath, hl]
  · intro hl
    rw [hcmd]
    simp only [user_tool_tier, hut, hpath, hl]

def c5_exe : Str := ("runner").data
def c5_args : List Str := [("x").data, ("y").data]

def c5_user_tool : UserToolM :=
  { image := { path := .ok (("env/path").data) },
    bin_path := ("install/runner").data,
    loader := some { command := ("engine").data, args := [("--flag").data] } }

def c5_session : SessionM :=
  { project := .ok none,
    user_platform := .ok none,
    get_user_tool := fun e => .ok (if e = c5_exe then some c5_user_tool else none),
    is_file := fun _ => false }

theorem claim_C5_loader_composition_witness :
    command c5_exe c5_args c5_session
      = .ok (.direct (("engine").data)
          ([("--flag").data] ++ (("install/runner").data :: c5_args))
          (("env/path").data)) :=
  (claim_C5_loader_composition c5_exe c5_args c5_session c5_user_tool (("env/path").data)
    (Or.inl (by rfl)) (by rfl) (by rfl)).1
    { command := ("engine").data, args := [("--flag").data] } (by rfl)

/-- C8: when neither the project-local nor the user-managed tier
matches, resolution succeeds with a Passthrough command carrying the
bare command name and the caller's arguments unchanged, with a
binary-not-found failure naming the command attached for execution
time. -/
theorem claim_C8_passthrough_fallback (exe : Str) (args : List Str) (s : SessionM)
    (hnp : s.project = .ok none
      ∨ ∃ p, s.project = .ok (some p) ∧ p.has_direct_bin exe = .ok false)
    (hnt : s.get_user_tool exe = .ok none) :
    command exe args s = .ok (.passthrough exe args (.BinaryNotFound exe)) := by
  have hcmd : command exe args s = user_tool_tier exe args s := by
    rcases hnp with h | ⟨p, h, hb⟩
    · simp only [command, h]
    · simp only [command, h, hb]
  rw [hcmd]
  simp only [user_tool_tier, hnt]

def c8_session : SessionM :=
  { project := .ok none,
    user_platform := .ok none,
    get_user_tool := fun _ => .ok none,
    is_file := fun _ => false }

theorem claim_C8_passthrough_fallback_witness :
    command (("bar").data) [("a").data] c8_session
      = .ok (.passthrough (("bar").data) [("a").data] (.BinaryNotFound (("bar").data))) :=
  claim_C8_passthrough_fallback (("bar").data) [("a").data] c8_session
    (Or.inl (by rfl)) (by rfl)

/-- C3 (amended): for a project-declared binary whose resolved path
exists, the environment is chosen by checking the project's pinned
platform, else the user default platform — in those two cases a
ProjectLocal command carries the resolved path, the unchanged caller
arguments and the realized environment — and when neither platform is
available the code emits a Passthrough command carrying the resolved
path and unchanged arguments with a deferred NoPlatform failure, so
platform absence is deferred to execution time rather than raised at
resolution. -/
theorem claim_C3_platform_selection_amended (exe : Str) (args : List Str) (s : SessionM)
    (p : ProjectM)
    (hp : s.project = .ok (some p))
    (hb : p.has_direct_bin exe = .ok true)
    (hfile : s.is_file (p.local_bin_dir ++ ('/' :: exe)) = true) :
    (∀ pl img path, p.platform = some pl → pl.checkout = .ok img → img.path = .ok path →
      command exe args s
        = .ok (.project_local (p.local_bin_dir ++ ('/' :: exe)) args path))
    ∧ (∀ pl img path, p.platform = none → s.user_platform = .ok (some pl)
        → pl.checkout = .ok img → img.path = .ok path →
      command exe args s
        = .ok (.project_local (p.local_bin_dir ++ ('/' :: exe)) args path))
    ∧ (p.platform = none → s.user_platform = .ok none →
      command exe args s
        = .ok (.passthrough (p.local_bin_dir ++ ('/' :: exe)) args .NoPlatform)) := by
  have hcmd : command exe args s = project_local_tier exe args p s := by
    simp only [command, hp, hb]
  refine ⟨?_, ?_, ?_⟩
  · intro pl img path h1 h2 h3
    rw [hcmd]
    simp [project_local_tier, hfile, h1, h2, h3]
  · intro pl img path h1 h4 h2 h3
    rw [hcmd]
    simp [project_local_tier, hfile, h1, h4, h2, h3]
  · intro h1 h4
    rw [hcmd]
    simp [project_local_tier, hfile, h1, h4]

/-- Discriminator for the constructor the emitted command uses. -/
def returns_project_local : Except ErrorDetails ToolCommand → Bool
  | .ok (.project_local _ _ _) => true
  | _ => false

def c3_exe : Str := ("tsc").data

def c3_args : List Str := [("--build").data]

def c3_project : ProjectM :=
  { has_direct_bin := fun e => .ok (decide (e = c3_exe)),
    local_bin_dir := ("proj/node_modules/.bin").data,
    platform := none }

def c3_bin : Str := c3_project.local_bin_dir ++ ('/' :: c3_exe)

def c3_session : SessionM :=
  { project := .ok (some c3_project),
    user_platform := .ok none,
    get_user_tool := fun _ => .ok none,
    is_file := fun q => decide (q = c3_bin) }

/-- C3 counterexample: the claim as stated says that in all three
environment cases (project platform, user platform, no platform) a
ProjectLocal command is emitted.  At this concrete input — active
project declaring the binary, resolved path existing on disk, no
project platform and no user platform — the code emits a Passthrough
command (binary.rs:47), not a ProjectLocal one. -/
theorem claim_C3_platform_selection_counterexample :
    command c3_exe c3_args c3_session = .ok (.passthrough c3_bin c3_args .NoPlatform)
    ∧ returns_project_local (command c3_exe c3_args c3_session) = false :=
  ⟨by rfl, by rfl⟩

theorem claim_C3_platform_selection_amended_witness :
    command c3_exe c3_args c3_session
      = .ok (.passthrough (c3_project.local_bin_dir ++ ('/' :: c3_exe)) c3_args
          .NoPlatform) :=
  (claim_C3_platform_selection_amended c3_exe c3_args c3_session c3_project
    (by rfl) (by rfl) (by rfl)).2.2 (by rfl) (by rfl)
